import Mathlib

/-!
Verification of the CAV scheduling engine (`base_escalonador.py`).

The Python classes are embedded shallowly: `TarefaCAV` becomes a record of
timing fields over `ℚ` (the simulated clock is exact rational time, the fixed
preemption overhead `0.3` is `3/10`), optional fields become `Option ℚ`, the
mutable scheduler loops become fuel-indexed functions over an explicit state,
and a Python `TypeError` raised by comparing `None` with a number becomes an
`Except String` error value.  The field `finalAssignCount` is a ghost counter
that is incremented exactly at the program points where the Python code
executes `tarefa.tempo_final = self.tempo_atual`; it lets us state how many
times a finish time was assigned.
-/

/-- Embedding of the Python class `TarefaCAV` (one schedulable task and its
observed timing fields). -/
structure TarefaCAV where
  nome : String
  duracao : ℚ
  prioridade : ℤ
  tempo_restante : ℚ
  tempo_inicio : Option ℚ
  tempo_final : Option ℚ
  tempo_chegada : ℚ
  tempo_em_espera : ℚ
  tempo_de_resposta : Option ℚ
  tempo_inicio_execucao_atual : Option ℚ
  tempo_final_execucao_atual : Option ℚ
  deadline : Option ℚ
  possivelmente_catastrofico : Bool
  tempos_execucao : List (ℚ × ℚ)
  finalAssignCount : Nat
deriving DecidableEq, Repr

instance : Inhabited TarefaCAV :=
  ⟨⟨"", 0, 1, 0, none, none, 0, 0, none, none, none, none, false, [], 0⟩⟩

/-- Embedding of `TarefaCAV.__init__`: a freshly constructed task. -/
def mkTarefa (nome : String) (duracao tempo_chegada : ℚ)
    (possivelmente_catastrofico : Bool) (prioridade : ℤ)
    (deadline : Option ℚ) : TarefaCAV :=
  { nome := nome
    duracao := duracao
    prioridade := prioridade
    tempo_restante := duracao
    tempo_inicio := none
    tempo_final := none
    tempo_chegada := tempo_chegada
    tempo_em_espera := 0
    tempo_de_resposta := none
    tempo_inicio_execucao_atual := none
    tempo_final_execucao_atual := none
    deadline := deadline
    possivelmente_catastrofico := possivelmente_catastrofico
    tempos_execucao := []
    finalAssignCount := 0 }

/-- Embedding of `TarefaCAV.executar`: run for `quantum` or until done,
returning the updated task and the consumed time. -/
def TarefaCAV.executar (t : TarefaCAV) (quantum : ℚ) : TarefaCAV × ℚ :=
  let tempo_exec := min t.tempo_restante quantum
  ({ t with tempo_restante := t.tempo_restante - tempo_exec }, tempo_exec)

/-- Descriptor of the construction arguments of a task, used to speak about
independently constructed copies of one task list. -/
structure DescritorTarefa where
  nome : String
  duracao : ℚ
  tempo_chegada : ℚ
  possivelmente_catastrofico : Bool
  prioridade : ℤ
  deadline : Option ℚ
deriving DecidableEq, Repr

/-- Construct a task from a descriptor (one call of `TarefaCAV.__init__`). -/
def mkTarefaDesc (d : DescritorTarefa) : TarefaCAV :=
  mkTarefa d.nome d.duracao d.tempo_chegada d.possivelmente_catastrofico
    d.prioridade d.deadline

/-- Embedding of the state of the abstract base class `EscalonadorCAV`. -/
structure EscalonadorCAVEstado where
  tarefas : List TarefaCAV
  menor_tarefa : Option TarefaCAV
  sobrecarga_total : ℚ
  tempo_atual : ℚ
deriving DecidableEq, Repr

/-- Embedding of `EscalonadorCAV.__init__`. -/
def mkEscalonadorCAV : EscalonadorCAVEstado :=
  { tarefas := [], menor_tarefa := none, sobrecarga_total := 0, tempo_atual := 0 }

/-- Embedding of `EscalonadorCAV.adicionar_tarefa`: appends the task and
updates the smallest-duration tracking field.  The Python method performs no
validation of any kind. -/
def adicionar_tarefa (s : EscalonadorCAVEstado) (tarefa : TarefaCAV) :
    EscalonadorCAVEstado :=
  { s with
    tarefas := s.tarefas ++ [tarefa]
    menor_tarefa :=
      match s.menor_tarefa with
      | none => some tarefa
      | some m => if tarefa.duracao < m.duracao then some tarefa else some m }

/-- Embedding of the state of `EscalonadorRoundRobin` (base fields plus the
quantum taken by `__init__`). -/
structure EscalonadorRoundRobinEstado where
  tarefas : List TarefaCAV
  menor_tarefa : Option TarefaCAV
  sobrecarga_total : ℚ
  tempo_atual : ℚ
  quantum : ℚ
deriving DecidableEq, Repr

/-- Embedding of `EscalonadorRoundRobin.__init__(quantum)`: stores the quantum
unconditionally; there is no validity check on it. -/
def mkEscalonadorRoundRobin (quantum : ℚ) : EscalonadorRoundRobinEstado :=
  { tarefas := [], menor_tarefa := none, sobrecarga_total := 0, tempo_atual := 0,
    quantum := quantum }

/-- Stable insertion (ascending by `key`): the new element goes before the
first strictly greater key, hence after existing equal keys, exactly as
Python's stable `list.sort(key=...)`. -/
def insereAsc (key : TarefaCAV → ℚ) (t : TarefaCAV) :
    List TarefaCAV → List TarefaCAV
  | [] => [t]
  | x :: xs => if key t ≤ key x then t :: x :: xs else x :: insereAsc key t xs

/-- Stable ascending sort by `key`, matching Python `list.sort(key=...)`. -/
def sortAsc (key : TarefaCAV → ℚ) : List TarefaCAV → List TarefaCAV
  | [] => []
  | x :: xs => insereAsc key x (sortAsc key xs)

/-- Stable insertion (descending by `key`), matching Python
`list.sort(key=..., reverse=True)`: among equal keys original order is kept. -/
def insereDesc (key : TarefaCAV → ℚ) (t : TarefaCAV) :
    List TarefaCAV → List TarefaCAV
  | [] => [t]
  | x :: xs => if key x ≤ key t then t :: x :: xs else x :: insereDesc key t xs

/-- Stable descending sort by `key`. -/
def sortDesc (key : TarefaCAV → ℚ) : List TarefaCAV → List TarefaCAV
  | [] => []
  | x :: xs => insereDesc key x (sortDesc key xs)

/-- Remove the first occurrence of `c` (Python `fila.remove(tarefa)`). -/
def removeFirst (c : TarefaCAV) : List TarefaCAV → List TarefaCAV
  | [] => []
  | x :: xs => if x = c then xs else x :: removeFirst c xs

/-- Pick `tarefas_que_chegaram[0]` and remove it from the queue: the first
task of `fila` whose arrival is `≤ now`, together with the remaining queue. -/
def removeFirstArrived (now : ℚ) :
    List TarefaCAV → Option (TarefaCAV × List TarefaCAV)
  | [] => none
  | t :: rest =>
    if t.tempo_chegada ≤ now then some (t, rest)
    else
      match removeFirstArrived now rest with
      | some (c, rest') => some (c, t :: rest')
      | none => none

/-- Reinsertion of a preempted task: it goes immediately before the first
queued task whose arrival is strictly after the clock, else at the back
(the scan-and-insert loop shared by all preemptive `escalonar` methods). -/
def reinserir (now : ℚ) (t : TarefaCAV) : List TarefaCAV → List TarefaCAV
  | [] => [t]
  | x :: xs => if now < x.tempo_chegada then t :: x :: xs else x :: reinserir now t xs

/-- End of the last recorded burst, if any. -/
def lastEnd? : List (ℚ × ℚ) → Option ℚ
  | [] => none
  | [(_, e)] => some e
  | _ :: rest => lastEnd? rest

/-- Sum of the gaps between consecutive bursts, starting from base point
`prev`: for bursts `(s₁,e₁)…(sₖ,eₖ)` this is `(s₁-prev)+(s₂-e₁)+…`. -/
def gapsFrom (prev : ℚ) : List (ℚ × ℚ) → ℚ
  | [] => 0
  | (s, e) :: rest => (s - prev) + gapsFrom e rest

/-- Sum of the recorded burst lengths of a task. -/
def somaBursts (t : TarefaCAV) : ℚ :=
  (t.tempos_execucao.map (fun p => p.2 - p.1)).sum

/-- Modelled from the spec: the waiting-time total the specification
describes is the sum of the gaps between this task's bursts with the first
gap measured from its arrival time. -/
def esperaSegundoSpec (t : TarefaCAV) : ℚ :=
  gapsFrom t.tempo_chegada t.tempos_execucao

/-- Shared state of the queue-driven `escalonar` loops: the live queue, the
tasks that have left the queue for good, the accumulated overhead and the
simulated clock. -/
structure EstadoRR where
  fila : List TarefaCAV
  concluidas : List TarefaCAV
  sobrecarga_total : ℚ
  tempo_atual : ℚ
deriving DecidableEq, Repr

/-- One preemptive burst (body shared verbatim by Round-Robin, EDF and the
preemptive priority schedulers): record the start, update unset start time,
accumulate the waiting gap measured from the end of the previous burst or
from `0`, append the burst, decrement the remaining time.  Returns the
updated task together with the burst end time. -/
def executaBurst (quantum now : ℚ) (t : TarefaCAV) : TarefaCAV × ℚ :=
  let inicioExec := max now t.tempo_chegada
  let tempoExec := min t.tempo_restante quantum
  let fim := inicioExec + tempoExec
  ({ t with
      tempo_inicio_execucao_atual := some inicioExec
      tempo_inicio := some (t.tempo_inicio.getD inicioExec)
      tempo_em_espera :=
        t.tempo_em_espera + (inicioExec - t.tempo_final_execucao_atual.getD 0)
      tempo_final_execucao_atual := some fim
      tempos_execucao := t.tempos_execucao ++ [(inicioExec, fim)]
      tempo_restante := t.tempo_restante - tempoExec
      tempo_de_resposta := some (t.tempo_inicio.getD inicioExec - t.tempo_chegada) },
   fim)

/-- Dispatch of one selected task in the preemptive loops: skip it if it has
no remaining work, otherwise run one burst; afterwards either charge the
fixed `0.3` overhead to clock and accumulator and reinsert it, or mark it
finished at the current clock. -/
def executaPreemptivo (quantum : ℚ) (s : EstadoRR) (t : TarefaCAV)
    (fila' : List TarefaCAV) : EstadoRR :=
  if 0 < t.tempo_restante then
    let r := executaBurst quantum s.tempo_atual t
    if 0 < r.1.tempo_restante then
      { fila := reinserir (r.2 + 3/10) r.1 fila'
        concluidas := s.concluidas
        sobrecarga_total := s.sobrecarga_total + 3/10
        tempo_atual := r.2 + 3/10 }
    else
      { fila := fila'
        concluidas := s.concluidas ++
          [{ r.1 with tempo_final := some r.2
                      finalAssignCount := r.1.finalAssignCount + 1 }]
        sobrecarga_total := s.sobrecarga_total
        tempo_atual := r.2 }
  else
    { fila := fila'
      concluidas := s.concluidas ++ [t]
      sobrecarga_total := s.sobrecarga_total
      tempo_atual := s.tempo_atual }

/-- The `while fila:` loop of `EscalonadorRoundRobin.escalonar`, indexed by
fuel.  When no queued task has arrived the clock jumps to
`math.ceil(tempo_atual + 1)`; otherwise the first arrived task is dispatched. -/
def rrLoop (quantum : ℚ) : Nat → EstadoRR → Option EstadoRR
  | 0, _ => none
  | fuel + 1, s =>
    match s.fila with
    | [] => some s
    | _ :: _ =>
      match removeFirstArrived s.tempo_atual s.fila with
      | none => rrLoop quantum fuel { s with tempo_atual := ((s.tempo_atual + 1 : ℚ).ceil : ℚ) }
      | some (t, fila') => rrLoop quantum fuel (executaPreemptivo quantum s t fila')

/-- Embedding of `EscalonadorRoundRobin.escalonar`: sort by arrival, start the
clock at the earliest arrival, and run the queue loop. -/
def escalonarRR (quantum : ℚ) (fuel : Nat) (tarefas : List TarefaCAV) :
    Option EstadoRR :=
  let ordenadas := sortAsc (fun t => t.tempo_chegada) tarefas
  match ordenadas with
  | [] => some { fila := [], concluidas := [], sobrecarga_total := 0, tempo_atual := 0 }
  | t0 :: _ =>
    rrLoop quantum fuel
      { fila := ordenadas, concluidas := [], sobrecarga_total := 0,
        tempo_atual := t0.tempo_chegada }

/-- One run-to-completion execution shared by FIFO and SJF: start at
`max(now, arrival)`, run the whole duration in one burst, set finish time,
overwrite the waiting and response accumulators.  `tempo_restante` is not
touched. -/
def execNaoPreemptivo (now : ℚ) (t : TarefaCAV) : TarefaCAV × ℚ :=
  let inicio := max now t.tempo_chegada
  let fim := inicio + t.duracao
  ({ t with
      tempo_inicio := some inicio
      tempo_inicio_execucao_atual := some inicio
      tempo_final_execucao_atual := some fim
      tempos_execucao := t.tempos_execucao ++ [(inicio, fim)]
      tempo_final := some fim
      finalAssignCount := t.finalAssignCount + 1
      tempo_em_espera := inicio - t.tempo_chegada
      tempo_de_resposta := some (inicio - t.tempo_chegada) },
   fim)

/-- One iteration of the FIFO `for` loop over the sorted queue: the
accumulator carries the processed tasks and the clock. -/
def fifoPasso (acc : List TarefaCAV × ℚ) (t : TarefaCAV) : List TarefaCAV × ℚ :=
  let r := execNaoPreemptivo acc.2 t
  (acc.1 ++ [r.1], r.2)

/-- Embedding of `EscalonadorFIFO.escalonar`: sort by arrival and execute the
queue in order, each task to completion. -/
def escalonarFIFO (tarefas : List TarefaCAV) : List TarefaCAV × ℚ :=
  let ordenadas := sortAsc (fun t => t.tempo_chegada) tarefas
  match ordenadas with
  | [] => ([], 0)
  | t0 :: _ => ordenadas.foldl fifoPasso ([], t0.tempo_chegada)

/-- The `while fila:` loop of `EscalonadorSJF.escalonar`, indexed by fuel.
It mirrors the Python code faithfully, including its stale-variable slip:
when no queued task has arrived yet, the loop body still runs on the task
selected in the previous iteration (the most recently completed task),
re-executing it and overwriting its finish time. -/
def sjfLoop : Nat → EstadoRR → Option EstadoRR
  | 0, _ => none
  | fuel + 1, s =>
    match s.fila with
    | [] => some s
    | _ :: _ =>
      let chegaram :=
        sortAsc (fun t => t.duracao)
          (s.fila.filter (fun t => t.tempo_chegada ≤ s.tempo_atual))
      match chegaram with
      | c :: _ =>
        let r := execNaoPreemptivo s.tempo_atual c
        sjfLoop fuel
          { fila := removeFirst c s.fila
            concluidas := s.concluidas ++ [r.1]
            sobrecarga_total := s.sobrecarga_total
            tempo_atual := r.2 }
      | [] =>
        match s.concluidas.getLast? with
        | none => none
        | some t =>
          let r := execNaoPreemptivo s.tempo_atual t
          sjfLoop fuel
            { fila := s.fila
              concluidas := s.concluidas.dropLast ++ [r.1]
              sobrecarga_total := s.sobrecarga_total
              tempo_atual := r.2 }

/-- Embedding of `EscalonadorSJF.escalonar`. -/
def escalonarSJF (fuel : Nat) (tarefas : List TarefaCAV) : Option EstadoRR :=
  let ordenadas := sortAsc (fun t => t.tempo_chegada) tarefas
  match ordenadas with
  | [] => some { fila := [], concluidas := [], sobrecarga_total := 0, tempo_atual := 0 }
  | t0 :: _ =>
    sjfLoop fuel
      { fila := ordenadas, concluidas := [], sobrecarga_total := 0,
        tempo_atual := t0.tempo_chegada }

/-- The selection of `EscalonadorPrioridadeNP.escalonar`: the arrived tasks
are sorted by priority with `reverse=True` and the head is taken, so the task
with the numerically largest priority value is chosen. -/
def selecionarPrioridadeNP (chegaram : List TarefaCAV) : Option TarefaCAV :=
  (sortDesc (fun t => (t.prioridade : ℚ)) chegaram).head?

/-- The run-to-completion execution of `EscalonadorPrioridadeNP.escalonar`:
unlike FIFO/SJF it starts exactly at the current clock (the selected task has
already arrived). -/
def execPrioridadeNP (now : ℚ) (t : TarefaCAV) : TarefaCAV × ℚ :=
  let fim := now + t.duracao
  ({ t with
      tempo_inicio := some now
      tempo_inicio_execucao_atual := some now
      tempo_final := some fim
      finalAssignCount := t.finalAssignCount + 1
      tempo_de_resposta := some (now - t.tempo_chegada)
      tempo_em_espera := now - t.tempo_chegada
      tempo_final_execucao_atual := some fim
      tempos_execucao := t.tempos_execucao ++ [(now, fim)] },
   fim)

/-- The `while fila:` loop of `EscalonadorPrioridadeNP.escalonar`, indexed by
fuel; the idle step advances the clock by exactly `1`. -/
def npLoop : Nat → EstadoRR → Option EstadoRR
  | 0, _ => none
  | fuel + 1, s =>
    match s.fila with
    | [] => some s
    | _ :: _ =>
      let chegaram := s.fila.filter (fun t => t.tempo_chegada ≤ s.tempo_atual)
      match selecionarPrioridadeNP chegaram with
      | none => npLoop fuel { s with tempo_atual := s.tempo_atual + 1 }
      | some c =>
        let r := execPrioridadeNP s.tempo_atual c
        npLoop fuel
          { fila := removeFirst c s.fila
            concluidas := s.concluidas ++ [r.1]
            sobrecarga_total := s.sobrecarga_total
            tempo_atual := r.2 }

/-- Embedding of `EscalonadorPrioridadeNP.escalonar`. -/
def escalonarNP (fuel : Nat) (tarefas : List TarefaCAV) : Option EstadoRR :=
  let ordenadas := sortAsc (fun t => t.tempo_chegada) tarefas
  match ordenadas with
  | [] => some { fila := [], concluidas := [], sobrecarga_total := 0, tempo_atual := 0 }
  | t0 :: _ =>
    npLoop fuel
      { fila := ordenadas, concluidas := [], sobrecarga_total := 0,
        tempo_atual := t0.tempo_chegada }

/-- Embedding of the Python sort `tarefas_que_chegaram.sort(key=lambda t:
t.deadline)` used by EDF.  A list of two or more elements containing a `None`
deadline makes Python's sort compare `None` with a value, raising
`TypeError`; a list with at most one element performs no comparison. -/
def sortByDeadline (l : List TarefaCAV) : Except String (List TarefaCAV) :=
  if 2 ≤ l.length ∧ (l.any fun t => t.deadline.isNone) = true then
    .error "TypeError"
  else
    .ok (sortAsc (fun t => t.deadline.getD 0) l)

/-- The `while fila:` loop of `EscalonadorEDF.escalonar`, indexed by fuel; a
`TypeError` from the deadline sort aborts the run. -/
def edfLoop (quantum : ℚ) : Nat → EstadoRR → Except String EstadoRR
  | 0, _ => .error "fuel"
  | fuel + 1, s =>
    match s.fila with
    | [] => .ok s
    | _ :: _ =>
      let chegaram := s.fila.filter (fun t => t.tempo_chegada ≤ s.tempo_atual)
      match chegaram with
      | [] => edfLoop quantum fuel { s with tempo_atual := ((s.tempo_atual + 1 : ℚ).ceil : ℚ) }
      | _ :: _ =>
        match sortByDeadline chegaram with
        | .error e => .error e
        | .ok ordenadas =>
          match ordenadas with
          | [] => .error "unreachable"
          | c :: _ =>
            edfLoop quantum fuel
              (executaPreemptivo quantum { s with fila := removeFirst c s.fila } c
                (removeFirst c s.fila))

/-- Embedding of `EscalonadorEDF.escalonar`. -/
def escalonarEDF (quantum : ℚ) (fuel : Nat) (tarefas : List TarefaCAV) :
    Except String EstadoRR :=
  let ordenadas := sortAsc (fun t => t.tempo_chegada) tarefas
  match ordenadas with
  | [] => .ok { fila := [], concluidas := [], sobrecarga_total := 0, tempo_atual := 0 }
  | t0 :: _ =>
    edfLoop quantum fuel
      { fila := ordenadas, concluidas := [], sobrecarga_total := 0,
        tempo_atual := t0.tempo_chegada }

/-- Embedding of `EscalonadorUG.urgencia`.  In Python, when `deadline` is
`None` the comparison `deadline > tempo_resta` raises `TypeError`; when the
deadline is present but not greater than the remaining time the maximal
urgency `urg_max + 1` is returned. -/
def urgencia (prioridade : ℚ) (deadline : Option ℚ) (tempo_resta urg_max : ℚ) :
    Except String ℚ :=
  match deadline with
  | none => .error "TypeError"
  | some d =>
    if tempo_resta < d then .ok (prioridade / (d - tempo_resta))
    else .ok (urg_max + 1)

/-- Freshness of a task: exactly the state produced by `TarefaCAV.__init__`
for its mutable fields. -/
def Fresh (t : TarefaCAV) : Prop :=
  t.tempo_restante = t.duracao ∧ t.tempo_inicio = none ∧ t.tempo_final = none ∧
  t.tempo_em_espera = 0 ∧ t.tempo_de_resposta = none ∧
  t.tempo_inicio_execucao_atual = none ∧ t.tempo_final_execucao_atual = none ∧
  t.tempos_execucao = [] ∧ t.finalAssignCount = 0

instance (t : TarefaCAV) : Decidable (Fresh t) := by
  unfold Fresh; infer_instance

/-- Invariant relating the waiting accumulator, the recorded bursts and the
current-burst-end field of a task, as maintained by the preemptive loops:
the accumulator equals the gap sum of the bursts with base point `0`, and
`tempo_final_execucao_atual` is the end of the last burst. -/
def InvEspera (t : TarefaCAV) : Prop :=
  t.tempo_em_espera = gapsFrom 0 t.tempos_execucao ∧
  t.tempo_final_execucao_atual = lastEnd? t.tempos_execucao

/-- Invariant of queued tasks: no finish time yet, and a remaining time that
is nonnegative and zero only for a zero-duration task. -/
def InvFilaFinal (t : TarefaCAV) : Prop :=
  t.tempo_final = none ∧ t.finalAssignCount = 0 ∧ 0 ≤ t.tempo_restante ∧
  (t.tempo_restante = 0 → t.duracao = 0)

/-- Invariant of tasks that left the queue: either finished (finish time set
by exactly one assignment, at remaining time zero), or silently skipped (no
finish time, zero duration). -/
def InvDoneFinal (t : TarefaCAV) : Prop :=
  (t.tempo_final.isSome = true ∧ t.finalAssignCount = 1 ∧ t.tempo_restante = 0) ∨
  (t.tempo_final = none ∧ t.finalAssignCount = 0 ∧ t.duracao = 0)

/-- A concrete fresh task used by closed witness instances. -/
def tarefaW : TarefaCAV := mkTarefa "W" 2 0 false 1 none

/-- The concrete finished task of running Round-Robin with quantum `1` on the
single task `tarefaW`. -/
def tarefaWfim : TarefaCAV :=
  { nome := "W", duracao := 2, prioridade := 1, tempo_restante := 0,
    tempo_inicio := some 0, tempo_final := some (23/10), tempo_chegada := 0,
    tempo_em_espera := 3/10, tempo_de_resposta := some 0,
    tempo_inicio_execucao_atual := some (13/10),
    tempo_final_execucao_atual := some (23/10), deadline := none,
    possivelmente_catastrofico := false,
    tempos_execucao := [(0, 1), (13/10, 23/10)], finalAssignCount := 1 }

/-- The concrete final state of running Round-Robin with quantum `1` on the
single task `tarefaW`. -/
def estadoWfim : EstadoRR :=
  { fila := []
    concluidas := [tarefaWfim]
    sobrecarga_total := 3/10
    tempo_atual := 23/10 }

/-- A concrete FIFO result task used by closed witness instances. -/
def tarefaWfifo : TarefaCAV :=
  { nome := "W", duracao := 2, prioridade := 1, tempo_restante := 2,
    tempo_inicio := some 0, tempo_final := some 2, tempo_chegada := 0,
    tempo_em_espera := 0, tempo_de_resposta := some 0,
    tempo_inicio_execucao_atual := some 0, tempo_final_execucao_atual := some 2,
    deadline := none, possivelmente_catastrofico := false,
    tempos_execucao := [(0, 2)], finalAssignCount := 1 }

/-- Membership in a stable ascending insertion. -/
theorem mem_insereAsc (key : TarefaCAV → ℚ) (t : TarefaCAV)
    (l : List TarefaCAV) (y : TarefaCAV) :
    y ∈ insereAsc key t l ↔ y = t ∨ y ∈ l := by
  induction l with
  | nil => simp [insereAsc]
  | cons x xs ih =>
    simp only [insereAsc]
    split
    · simp [List.mem_cons]
    · simp only [List.mem_cons, ih]
      tauto

/-- Membership in a stable ascending sort. -/
theorem mem_sortAsc (key : TarefaCAV → ℚ) (l : List TarefaCAV) (y : TarefaCAV) :
    y ∈ sortAsc key l ↔ y ∈ l := by
  induction l with
  | nil => simp [sortAsc]
  | cons x xs ih =>
    simp only [sortAsc, mem_insereAsc, ih, List.mem_cons]

/-- Length of a stable ascending insertion. -/
theorem length_insereAsc (key : TarefaCAV → ℚ) (t : TarefaCAV)
    (l : List TarefaCAV) : (insereAsc key t l).length = l.length + 1 := by
  induction l with
  | nil => rfl
  | cons x xs ih =>
    simp only [insereAsc]
    split
    · rfl
    · simp [ih]

/-- Length of a stable ascending sort. -/
theorem length_sortAsc (key : TarefaCAV → ℚ) (l : List TarefaCAV) :
    (sortAsc key l).length = l.length := by
  induction l with
  | nil => rfl
  | cons x xs ih => simp [sortAsc, length_insereAsc, ih]

/-- The task returned by `removeFirstArrived` is in the queue, and the
remaining queue is a subset of the original one. -/
theorem removeFirstArrived_mem (now : ℚ) :
    ∀ (l : List TarefaCAV) (c : TarefaCAV) (rest : List TarefaCAV),
      removeFirstArrived now l = some (c, rest) →
      c ∈ l ∧ ∀ y ∈ rest, y ∈ l := by
  intro l
  induction l with
  | nil => intro c rest h; simp [removeFirstArrived] at h
  | cons x xs ih =>
    intro c rest h
    simp only [removeFirstArrived] at h
    split at h
    · cases h
      exact ⟨List.mem_cons_self _ _, fun y hy => List.mem_cons_of_mem _ hy⟩
    · cases hrec : removeFirstArrived now xs with
      | none => rw [hrec] at h; cases h
      | some p =>
        obtain ⟨c', rest'⟩ := p
        rw [hrec] at h
        cases h
        obtain ⟨hc, hrest⟩ := ih c rest' hrec
        refine ⟨List.mem_cons_of_mem _ hc, fun y hy => ?_⟩
        rcases List.mem_cons.1 hy with rfl | hy'
        · exact List.mem_cons_self _ _
        · exact List.mem_cons_of_mem _ (hrest y hy')

/-- Removing the first arrived task shortens the queue by one. -/
theorem removeFirstArrived_length (now : ℚ) :
    ∀ (l : List TarefaCAV) (c : TarefaCAV) (rest : List TarefaCAV),
      removeFirstArrived now l = some (c, rest) →
      rest.length + 1 = l.length := by
  intro l
  induction l with
  | nil => intro c rest h; simp [removeFirstArrived] at h
  | cons x xs ih =>
    intro c rest h
    simp only [removeFirstArrived] at h
    split at h
    · cases h; rfl
    · cases hrec : removeFirstArrived now xs with
      | none => rw [hrec] at h; cases h
      | some p =>
        obtain ⟨c', rest'⟩ := p
        rw [hrec] at h
        cases h
        simp [← ih c rest' hrec]

/-- Membership after reinsertion of a preempted task. -/
theorem mem_reinserir (now : ℚ) (t : TarefaCAV) :
    ∀ (l : List TarefaCAV) (y : TarefaCAV),
      y ∈ reinserir now t l → y = t ∨ y ∈ l := by
  intro l
  induction l with
  | nil => intro y hy; simp [reinserir] at hy; exact Or.inl hy
  | cons x xs ih =>
    intro y hy
    simp only [reinserir] at hy
    split at hy
    · rcases List.mem_cons.1 hy with rfl | hy'
      · exact Or.inl rfl
      · exact Or.inr hy'
    · rcases List.mem_cons.1 hy with rfl | hy'
      · exact Or.inr (List.mem_cons_self _ _)
      · rcases ih y hy' with rfl | hy''
        · exact Or.inl rfl
        · exact Or.inr (List.mem_cons_of_mem _ hy'')

/-- Reinsertion lengthens the queue by one. -/
theorem length_reinserir (now : ℚ) (t : TarefaCAV) :
    ∀ l : List TarefaCAV, (reinserir now t l).length = l.length + 1 := by
  intro l
  induction l with
  | nil => rfl
  | cons x xs ih =>
    simp only [reinserir]
    split
    · rfl
    · simp [ih]

/-- Appending a burst makes its end the last burst end. -/
theorem lastEnd?_append_single (l : List (ℚ × ℚ)) (s e : ℚ) :
    lastEnd? (l ++ [(s, e)]) = some e := by
  induction l with
  | nil => rfl
  | cons a l ih =>
    cases l with
    | nil => rfl
    | cons b l' => simpa using ih

/-- A nonempty burst list has a last end. -/
theorem lastEnd?_some (b : ℚ × ℚ) (l : List (ℚ × ℚ)) :
    ∃ z, lastEnd? (b :: l) = some z := by
  induction l generalizing b with
  | nil => exact ⟨b.2, by cases b; rfl⟩
  | cons c l' ih =>
    obtain ⟨z, hz⟩ := ih c
    exact ⟨z, hz⟩

/-- Appending a burst adds the gap from the previous last end (or from the
base point when there was no burst yet) to the gap sum. -/
theorem gapsFrom_append_single (l : List (ℚ × ℚ)) :
    ∀ (prev s e : ℚ),
      gapsFrom prev (l ++ [(s, e)]) =
        gapsFrom prev l + (s - (lastEnd? l).getD prev) := by
  induction l with
  | nil => intro prev s e; simp [gapsFrom, lastEnd?]
  | cons a l ih =>
    intro prev s e
    obtain ⟨a1, a2⟩ := a
    have hbase : (lastEnd? l).getD a2 = (lastEnd? ((a1, a2) :: l)).getD prev := by
      cases l with
      | nil => rfl
      | cons b l' =>
        obtain ⟨z, hz⟩ := lastEnd?_some b l'
        have hcons : lastEnd? ((a1, a2) :: b :: l') = lastEnd? (b :: l') := rfl
        rw [hcons, hz]
        rfl
    show (a1 - prev) + gapsFrom a2 (l ++ [(s, e)]) =
      ((a1 - prev) + gapsFrom a2 l) + (s - (lastEnd? ((a1, a2) :: l)).getD prev)
    rw [ih a2 s e, hbase]
    ring

/-- One preemptive burst preserves the waiting invariant. -/
theorem executaBurst_invEspera (quantum now : ℚ) (t : TarefaCAV)
    (h : InvEspera t) : InvEspera (executaBurst quantum now t).1 := by
  obtain ⟨h1, h2⟩ := h
  unfold InvEspera executaBurst
  simp only
  refine ⟨?_, ?_⟩
  · rw [gapsFrom_append_single, h1, h2]
  · rw [lastEnd?_append_single]

/-- A preemptive dispatch preserves the waiting invariant on every task of
the resulting state. -/
theorem executaPreemptivo_invEspera (quantum : ℚ) (s : EstadoRR)
    (t : TarefaCAV) (fila' : List TarefaCAV)
    (hc : ∀ y ∈ s.concluidas, InvEspera y) (hf : ∀ y ∈ fila', InvEspera y)
    (ht : InvEspera t) :
    (∀ y ∈ (executaPreemptivo quantum s t fila').fila, InvEspera y) ∧
    (∀ y ∈ (executaPreemptivo quantum s t fila').concluidas, InvEspera y) := by
  unfold executaPreemptivo
  split
  · simp only []
    split
    · refine ⟨?_, hc⟩
      intro y hy
      rcases mem_reinserir _ _ _ _ hy with rfl | hy'
      · exact executaBurst_invEspera quantum s.tempo_atual t ht
      · exact hf _ hy'
    · refine ⟨hf, ?_⟩
      intro y hy
      rcases List.mem_append.1 hy with hy' | hy'
      · exact hc _ hy'
      · simp only [List.mem_singleton] at hy'
        subst hy'
        have hb := executaBurst_invEspera quantum s.tempo_atual t ht
        exact hb
  · exact ⟨hf, fun y hy => by
      rcases List.mem_append.1 hy with hy' | hy'
      · exact hc _ hy'
      · simp only [List.mem_singleton] at hy'
        subst hy'
        exact ht⟩

/-- The Round-Robin loop preserves the waiting invariant. -/
theorem rrLoop_invEspera (quantum : ℚ) :
    ∀ (fuel : Nat) (s s' : EstadoRR),
      (∀ y ∈ s.fila, InvEspera y) → (∀ y ∈ s.concluidas, InvEspera y) →
      rrLoop quantum fuel s = some s' →
      (∀ y ∈ s'.fila, InvEspera y) ∧ (∀ y ∈ s'.concluidas, InvEspera y) := by
  intro fuel
  induction fuel with
  | zero => intro s s' _ _ h; simp [rrLoop] at h
  | succ n ih =>
    intro s s' hf hc h
    rw [rrLoop] at h
    split at h
    · cases h; exact ⟨hf, hc⟩
    · split at h
      · exact ih { s with tempo_atual := ((s.tempo_atual + 1 : ℚ).ceil : ℚ) } s' hf hc h
      · rename_i t fila' heq
        obtain ⟨hct, hrest⟩ := removeFirstArrived_mem s.tempo_atual s.fila t fila' heq
        have step := executaPreemptivo_invEspera quantum s t fila' hc
          (fun y hy => hf y (hrest y hy)) (hf t hct)
        exact ih _ _ step.1 step.2 h

/-- A burst does not touch the finish time. -/
theorem executaBurst_tempo_final (quantum now : ℚ) (t : TarefaCAV) :
    (executaBurst quantum now t).1.tempo_final = t.tempo_final := rfl

/-- A burst does not touch the finish-assignment counter. -/
theorem executaBurst_finalAssignCount (quantum now : ℚ) (t : TarefaCAV) :
    (executaBurst quantum now t).1.finalAssignCount = t.finalAssignCount := rfl

/-- A burst subtracts exactly `min(remaining, quantum)` from the remaining
time. -/
theorem executaBurst_tempo_restante (quantum now : ℚ) (t : TarefaCAV) :
    (executaBurst quantum now t).1.tempo_restante =
      t.tempo_restante - min t.tempo_restante quantum := rfl

/-- A burst does not touch the duration. -/
theorem executaBurst_duracao (quantum now : ℚ) (t : TarefaCAV) :
    (executaBurst quantum now t).1.duracao = t.duracao := rfl

/-- After a burst the remaining time is never negative, for any quantum,
because the consumed time `min(remaining, quantum)` never exceeds the
remaining time. -/
theorem executaBurst_restante_nonneg (quantum now : ℚ) (t : TarefaCAV) :
    0 ≤ (executaBurst quantum now t).1.tempo_restante := by
  rw [executaBurst_tempo_restante]
  exact sub_nonneg.2 (min_le_left _ _)

/-- A preemptive dispatch preserves the finish-time invariants. -/
theorem executaPreemptivo_invFinal (quantum : ℚ) (s : EstadoRR)
    (t : TarefaCAV) (fila' : List TarefaCAV)
    (hc : ∀ y ∈ s.concluidas, InvDoneFinal y) (hf : ∀ y ∈ fila', InvFilaFinal y)
    (ht : InvFilaFinal t) :
    (∀ y ∈ (executaPreemptivo quantum s t fila').fila, InvFilaFinal y) ∧
    (∀ y ∈ (executaPreemptivo quantum s t fila').concluidas, InvDoneFinal y) := by
  obtain ⟨ht1, ht2, ht3, ht4⟩ := ht
  unfold executaPreemptivo
  split
  · simp only []
    split
    · rename_i hpos'
      refine ⟨?_, hc⟩
      intro y hy
      rcases mem_reinserir _ _ _ _ hy with rfl | hy'
      · refine ⟨?_, ?_, ?_, ?_⟩
        · rw [executaBurst_tempo_final]; exact ht1
        · rw [executaBurst_finalAssignCount]; exact ht2
        · exact executaBurst_restante_nonneg quantum s.tempo_atual t
        · intro h0; exact absurd h0 (ne_of_gt hpos')
      · exact hf _ hy'
    · rename_i hnpos
      refine ⟨hf, ?_⟩
      intro y hy
      rcases List.mem_append.1 hy with hy' | hy'
      · exact hc _ hy'
      · simp only [List.mem_singleton] at hy'
        subst hy'
        left
        refine ⟨rfl, ?_, ?_⟩
        · show (executaBurst quantum s.tempo_atual t).1.finalAssignCount + 1 = 1
          rw [executaBurst_finalAssignCount, ht2]
        · show (executaBurst quantum s.tempo_atual t).1.tempo_restante = 0
          exact le_antisymm (not_lt.1 hnpos)
            (executaBurst_restante_nonneg quantum s.tempo_atual t)
  · rename_i hnpos
    refine ⟨hf, ?_⟩
    intro y hy
    rcases List.mem_append.1 hy with hy' | hy'
    · exact hc _ hy'
    · simp only [List.mem_singleton] at hy'
      subst hy'
      right
      exact ⟨ht1, ht2, ht4 (le_antisymm (not_lt.1 hnpos) ht3)⟩

/-- The Round-Robin loop preserves the finish-time invariants. -/
theorem rrLoop_invFinal (quantum : ℚ) :
    ∀ (fuel : Nat) (s s' : EstadoRR),
      (∀ y ∈ s.fila, InvFilaFinal y) → (∀ y ∈ s.concluidas, InvDoneFinal y) →
      rrLoop quantum fuel s = some s' →
      (∀ y ∈ s'.fila, InvFilaFinal y) ∧ (∀ y ∈ s'.concluidas, InvDoneFinal y) := by
  intro fuel
  induction fuel with
  | zero => intro s s' _ _ h; simp [rrLoop] at h
  | succ n ih =>
    intro s s' hf hc h
    rw [rrLoop] at h
    split at h
    · cases h; exact ⟨hf, hc⟩
    · split at h
      · exact ih { s with tempo_atual := ((s.tempo_atual + 1 : ℚ).ceil : ℚ) } s' hf hc h
      · rename_i t fila' heq
        obtain ⟨hct, hrest⟩ := removeFirstArrived_mem s.tempo_atual s.fila t fila' heq
        have step := executaPreemptivo_invFinal quantum s t fila' hc
          (fun y hy => hf y (hrest y hy)) (hf t hct)
        exact ih _ _ step.1 step.2 h

/-- A preemptive dispatch preserves nonnegativity of every remaining time. -/
theorem executaPreemptivo_nonneg (quantum : ℚ) (s : EstadoRR)
    (t : TarefaCAV) (fila' : List TarefaCAV)
    (hc : ∀ y ∈ s.concluidas, 0 ≤ y.tempo_restante)
    (hf : ∀ y ∈ fila', 0 ≤ y.tempo_restante)
    (ht : 0 ≤ t.tempo_restante) :
    (∀ y ∈ (executaPreemptivo quantum s t fila').fila, 0 ≤ y.tempo_restante) ∧
    (∀ y ∈ (executaPreemptivo quantum s t fila').concluidas, 0 ≤ y.tempo_restante) := by
  unfold executaPreemptivo
  split
  · simp only []
    split
    · refine ⟨?_, hc⟩
      intro y hy
      rcases mem_reinserir _ _ _ _ hy with rfl | hy'
      · exact executaBurst_restante_nonneg quantum s.tempo_atual t
      · exact hf _ hy'
    · refine ⟨hf, ?_⟩
      intro y hy
      rcases List.mem_append.1 hy with hy' | hy'
      · exact hc _ hy'
      · simp only [List.mem_singleton] at hy'
        subst hy'
        show 0 ≤ (executaBurst quantum s.tempo_atual t).1.tempo_restante
        exact executaBurst_restante_nonneg quantum s.tempo_atual t
  · refine ⟨hf, ?_⟩
    intro y hy
    rcases List.mem_append.1 hy with hy' | hy'
    · exact hc _ hy'
    · simp only [List.mem_singleton] at hy'
      subst hy'
      exact ht

/-- The Round-Robin loop preserves nonnegativity of every remaining time. -/
theorem rrLoop_nonneg (quantum : ℚ) :
    ∀ (fuel : Nat) (s s' : EstadoRR),
      (∀ y ∈ s.fila, 0 ≤ y.tempo_restante) →
      (∀ y ∈ s.concluidas, 0 ≤ y.tempo_restante) →
      rrLoop quantum fuel s = some s' →
      (∀ y ∈ s'.fila, 0 ≤ y.tempo_restante) ∧
      (∀ y ∈ s'.concluidas, 0 ≤ y.tempo_restante) := by
  intro fuel
  induction fuel with
  | zero => intro s s' _ _ h; simp [rrLoop] at h
  | succ n ih =>
    intro s s' hf hc h
    rw [rrLoop] at h
    split at h
    · cases h; exact ⟨hf, hc⟩
    · split at h
      · exact ih { s with tempo_atual := ((s.tempo_atual + 1 : ℚ).ceil : ℚ) } s' hf hc h
      · rename_i t fila' heq
        obtain ⟨hct, hrest⟩ := removeFirstArrived_mem s.tempo_atual s.fila t fila' heq
        have step := executaPreemptivo_nonneg quantum s t fila' hc
          (fun y hy => hf y (hrest y hy)) (hf t hct)
        exact ih _ _ step.1 step.2 h

/-- A successful Round-Robin loop run ends with an empty queue. -/
theorem rrLoop_some_fila_nil (quantum : ℚ) :
    ∀ (fuel : Nat) (s s' : EstadoRR),
      rrLoop quantum fuel s = some s' → s'.fila = [] := by
  intro fuel
  induction fuel with
  | zero => intro s s' h; simp [rrLoop] at h
  | succ n ih =>
    intro s s' h
    rw [rrLoop] at h
    split at h
    · rename_i heq
      cases h
      exact heq
    · split at h
      · exact ih _ _ h
      · exact ih _ _ h

/-- A preemptive dispatch keeps the total number of tasks. -/
theorem executaPreemptivo_length (quantum : ℚ) (s : EstadoRR)
    (t : TarefaCAV) (fila' : List TarefaCAV) :
    (executaPreemptivo quantum s t fila').fila.length +
      (executaPreemptivo quantum s t fila').concluidas.length =
    (fila'.length + 1) + s.concluidas.length := by
  unfold executaPreemptivo
  split
  · simp only []
    split
    · simp only [length_reinserir]
    · simp only [List.length_append, List.length_singleton]
      omega
  · simp only [List.length_append, List.length_singleton]
    omega

/-- The Round-Robin loop keeps the total number of tasks. -/
theorem rrLoop_length (quantum : ℚ) :
    ∀ (fuel : Nat) (s s' : EstadoRR),
      rrLoop quantum fuel s = some s' →
      s'.fila.length + s'.concluidas.length =
        s.fila.length + s.concluidas.length := by
  intro fuel
  induction fuel with
  | zero => intro s s' h; simp [rrLoop] at h
  | succ n ih =>
    intro s s' h
    rw [rrLoop] at h
    split at h
    · cases h; rfl
    · split at h
      · exact ih { s with tempo_atual := ((s.tempo_atual + 1 : ℚ).ceil : ℚ) } s' h
      · rename_i t fila' heq
        have hlen := removeFirstArrived_length s.tempo_atual s.fila t fila' heq
        have hstep := executaPreemptivo_length quantum s t fila'
        have := ih _ _ h
        omega

/-- A fresh task satisfies the waiting invariant. -/
theorem fresh_invEspera (t : TarefaCAV) (h : Fresh t) : InvEspera t := by
  obtain ⟨-, -, -, h4, -, -, h7, h8, -⟩ := h
  constructor
  · rw [h4, h8]; rfl
  · rw [h7, h8]; rfl

/-- A fresh task with nonnegative duration satisfies the queued-task
invariant. -/
theorem fresh_invFilaFinal (t : TarefaCAV) (h : Fresh t) (hd : 0 ≤ t.duracao) :
    InvFilaFinal t := by
  obtain ⟨h1, -, h3, -, -, -, -, -, h9⟩ := h
  refine ⟨h3, h9, ?_, ?_⟩
  · rw [h1]; exact hd
  · intro h0; rw [← h1]; exact h0

/-- The FIFO fold does not touch `tempo_restante` and assigns the finish time
of every processed task exactly once. -/
theorem fifoPasso_foldl_inv :
    ∀ (l : List TarefaCAV) (acc : List TarefaCAV × ℚ),
      (∀ t ∈ acc.1, t.tempo_restante = t.duracao ∧ t.tempo_final.isSome = true ∧
        t.finalAssignCount = 1) →
      (∀ t ∈ l, t.tempo_restante = t.duracao ∧ t.finalAssignCount = 0) →
      ∀ t' ∈ (l.foldl fifoPasso acc).1,
        t'.tempo_restante = t'.duracao ∧ t'.tempo_final.isSome = true ∧
          t'.finalAssignCount = 1 := by
  intro l
  induction l with
  | nil => intro acc hacc _ t' ht'; exact hacc t' ht'
  | cons x xs ih =>
    intro acc hacc hl t' ht'
    rw [List.foldl_cons] at ht'
    refine ih _ ?_ (fun t ht => hl t (List.mem_cons_of_mem _ ht)) t' ht'
    intro t ht
    rcases List.mem_append.1 ht with h | h
    · exact hacc t h
    · simp only [List.mem_singleton] at h
      subst h
      obtain ⟨h1, h2⟩ := hl x (List.mem_cons_self _ _)
      refine ⟨?_, ?_, ?_⟩
      · show x.tempo_restante = x.duracao
        exact h1
      · rfl
      · show x.finalAssignCount + 1 = 1
        rw [h2]

/-- Claim C1: for every algorithm the sum of a task's recorded burst lengths
equals its duration.  The SJF scheduler violates this: with tasks
`A(duration 1, arrival 0)` and `B(duration 1, arrival 5)`, during the idle
gap the loop body keeps running on the stale variable holding the already
finished task `A`, so `A` accumulates bursts summing to `5` although its
duration is `1` (while `B` is correct). -/
theorem c1_sjf_reexecucao_soma_bursts :
    (escalonarSJF 12 [mkTarefa "A" 1 0 false 1 none,
        mkTarefa "B" 1 5 false 1 none]).map
      (fun s => s.concluidas.map (fun t => (t.nome, somaBursts t, t.duracao)))
      = some [("A", 5, 1), ("B", 1, 1)] := by
  with_unfolding_all rfl

/-- Claim C2: the non-preemptive priority scheduler is claimed to pick the
minimum priority value (lower = more urgent, as its own docstring says).  In
fact it sorts with `reverse=True` and takes the head: with arrived tasks of
priorities `1` and `2` it dispatches the priority-`2` task first and runs it
to completion in one burst, i.e. the numerically largest value wins. -/
theorem c2_prioridade_np_escolhe_maxima :
    (escalonarNP 5 [mkTarefa "X" 1 0 false 1 none,
        mkTarefa "Y" 1 0 false 2 none]).map
      (fun s => s.concluidas.map (fun t => (t.nome, t.prioridade, t.tempos_execucao)))
      = some [("Y", 2, [(0, 1)]), ("X", 1, [(1, 2)])] := by
  with_unfolding_all rfl

/-- Claim C3 (counterexample): the claimed Round-Robin trace for quantum `2`
on `A(5,0)`, `B(3,0)` gives finish times `B = 7.3` and `A = 8.3`; the code
charges the `0.3` overhead after every burst that leaves remaining work
(including the first two), so the real finish times are `B = 7.9` and
`A = 8.9`. -/
theorem c3_contraexemplo :
    (escalonarRR 2 10 [mkTarefa "A" 5 0 false 1 none,
        mkTarefa "B" 3 0 false 1 none]).map
      (fun s => s.concluidas.map (fun t => (t.nome, t.tempo_final)))
      = some [("B", some (79/10)), ("A", some (89/10))] ∧
    ((79 : ℚ)/10 ≠ 73/10) ∧ ((89 : ℚ)/10 ≠ 83/10) := by
  with_unfolding_all decide

/-- Claim C3 (amended): the actual Round-Robin trace for quantum `2` on
`A(5,0)`, `B(3,0)` is `A[0,2)`, `B[2.3,4.3)`, `A[4.6,6.6)`, `B[6.9,7.9)`,
`A[7.9,8.9)`: after each of the three bursts that leave remaining work the
fixed `0.3` overhead is added to both the clock and the accumulator (total
`0.9`), and the finish times are `B = 7.9`, `A = 8.9`. -/
theorem c3_trace_corrigido :
    (escalonarRR 2 10 [mkTarefa "A" 5 0 false 1 none,
        mkTarefa "B" 3 0 false 1 none]).map
      (fun s => (s.concluidas.map
          (fun t => (t.nome, t.tempos_execucao, t.tempo_final)),
        s.sobrecarga_total))
      = some ([("B", [(23/10, 43/10), (69/10, 79/10)], some (79/10)),
               ("A", [(0, 2), (23/5, 33/5), (79/10, 89/10)], some (89/10))],
              9/10) := by
  with_unfolding_all rfl

/-- Claim C5 (counterexample): `adicionar_tarefa` accepts a task with
negative duration and negative arrival, changing the task set instead of
raising, and the Round-Robin constructor accepts the non-positive quantum
`0`. -/
theorem c5_contraexemplo :
    (adicionar_tarefa mkEscalonadorCAV (mkTarefa "N" (-1) (-2) false 1 none)).tarefas ≠
      mkEscalonadorCAV.tarefas ∧
    (mkEscalonadorRoundRobin 0).quantum = 0 := by
  with_unfolding_all decide

/-- Claim C5 (amended): task admission performs no validation — any task,
including one with negative duration or arrival, is appended unconditionally
— and the Round-Robin constructor stores any quantum, including non-positive
ones; no `ConfigurationError` exists in the code. -/
theorem c5_adicionar_sem_validacao :
    (∀ (s : EscalonadorCAVEstado) (t : TarefaCAV),
        t.duracao < 0 ∨ t.tempo_chegada < 0 →
        (adicionar_tarefa s t).tarefas = s.tarefas ++ [t]) ∧
    (∀ quantum : ℚ, quantum ≤ 0 →
        (mkEscalonadorRoundRobin quantum).quantum = quantum ∧
        (mkEscalonadorRoundRobin quantum).tarefas = []) :=
  ⟨fun _ _ _ => rfl, fun _ _ => ⟨rfl, rfl⟩⟩

/-- Witness for claim C5's amended theorem at a concrete negative-duration
task and the quantum `0`. -/
theorem c5_adicionar_sem_validacao_witness :
    (adicionar_tarefa mkEscalonadorCAV (mkTarefa "N" (-1) (-2) false 1 none)).tarefas =
      mkEscalonadorCAV.tarefas ++ [mkTarefa "N" (-1) (-2) false 1 none] ∧
    (mkEscalonadorRoundRobin 0).quantum = 0 :=
  ⟨c5_adicionar_sem_validacao.1 mkEscalonadorCAV
      (mkTarefa "N" (-1) (-2) false 1 none)
      (Or.inl (by with_unfolding_all decide)),
   (c5_adicionar_sem_validacao.2 0 (by with_unfolding_all decide)).1⟩

/-- Claim C6 (counterexample): a missing deadline does not make the task
maximally urgent — EDF aborts with a `TypeError` when its arrived set holds
two tasks one of which has deadline `None`, and `urgencia` raises on any
`None` deadline. -/
theorem c6_contraexemplo :
    escalonarEDF 2 10 [mkTarefa "A" 3 0 false 1 (some 5),
        mkTarefa "B" 4 0 false 1 none] = Except.error "TypeError" ∧
    urgencia 1 none 5 (1/2) = Except.error "TypeError" :=
  ⟨by with_unfolding_all rfl, rfl⟩

/-- Claim C6 (amended): a `None` deadline makes `urgencia` raise `TypeError`
for every priority, remaining time and threshold; the maximal-urgency value
`urg_max + 1` is produced only for a present deadline that is at most the
remaining time; and an EDF run whose arrived set contains two tasks with
missing deadlines aborts with `TypeError` instead of completing. -/
theorem c6_deadline_ausente_erro :
    (∀ p r u : ℚ, urgencia p none r u = Except.error "TypeError") ∧
    (∀ p d r u : ℚ, d ≤ r → urgencia p (some d) r u = Except.ok (u + 1)) ∧
    escalonarEDF 2 10 [mkTarefa "C" 1 0 false 1 none,
        mkTarefa "D" 1 0 false 1 none] = Except.error "TypeError" := by
  refine ⟨fun p r u => rfl, fun p d r u h => ?_, by with_unfolding_all rfl⟩
  show (if r < d then Except.ok (p / (d - r)) else Except.ok (u + 1)) =
    Except.ok (u + 1)
  rw [if_neg (not_lt.2 h)]

/-- Witness for claim C6's amended theorem at a concrete present deadline
not exceeding the remaining time. -/
theorem c6_deadline_ausente_erro_witness :
    urgencia 1 (some 2) 3 (1/2) = Except.ok (1/2 + 1) :=
  c6_deadline_ausente_erro.2.1 1 2 3 (1/2) (by with_unfolding_all decide)

/-- Claim C9: two structurally identical, independently constructed copies
of one task list produce identical results (finish times, burst lists,
overhead totals) under every embedded strategy: the schedulers are pure
functions of the task list and their parameters. -/
theorem c9_determinismo :
    ∀ (quantum : ℚ) (fuel : Nat) (descs : List DescritorTarefa)
      (ts1 ts2 : List TarefaCAV),
      ts1 = descs.map mkTarefaDesc → ts2 = descs.map mkTarefaDesc →
      escalonarRR quantum fuel ts1 = escalonarRR quantum fuel ts2 ∧
      (escalonarRR quantum fuel ts1).map
          (fun s => (s.concluidas.map
              (fun t => (t.nome, t.tempo_final, t.tempos_execucao)),
            s.sobrecarga_total)) =
        (escalonarRR quantum fuel ts2).map
          (fun s => (s.concluidas.map
              (fun t => (t.nome, t.tempo_final, t.tempos_execucao)),
            s.sobrecarga_total)) ∧
      escalonarFIFO ts1 = escalonarFIFO ts2 ∧
      escalonarSJF fuel ts1 = escalonarSJF fuel ts2 ∧
      escalonarNP fuel ts1 = escalonarNP fuel ts2 ∧
      escalonarEDF quantum fuel ts1 = escalonarEDF quantum fuel ts2 := by
  intro quantum fuel descs ts1 ts2 h1 h2
  subst h1
  subst h2
  exact ⟨rfl, rfl, rfl, rfl, rfl, rfl⟩

/-- Witness for claim C9 at a concrete descriptor list. -/
theorem c9_determinismo_witness :
    escalonarRR 2 10
        (List.map mkTarefaDesc
          [⟨"A", 5, 0, false, 1, none⟩, ⟨"B", 3, 0, false, 1, none⟩]) =
      escalonarRR 2 10
        (List.map mkTarefaDesc
          [⟨"A", 5, 0, false, 1, none⟩, ⟨"B", 3, 0, false, 1, none⟩]) :=
  (c9_determinismo 2 10
    [⟨"A", 5, 0, false, 1, none⟩, ⟨"B", 3, 0, false, 1, none⟩] _ _ rfl rfl).1

/-- Claim C7 (counterexample): on a task's first burst the code increases
`tempo_em_espera` by the gap between the burst start and `0`, not the gap to
the task's arrival: for `A(duration 2, arrival 3)` under Round-Robin with
quantum `1`, the accumulated waiting is `3.3`, while the arrival-based gap
sum the claim describes is `0.3`. -/
theorem c7_contraexemplo :
    (escalonarRR 1 10 [mkTarefa "A" 2 3 false 1 none]).map
      (fun s => s.concluidas.map
        (fun t => (t.tempo_em_espera, esperaSegundoSpec t)))
      = some [(33/10, 3/10)] ∧ ((33 : ℚ)/10 ≠ 3/10) := by
  with_unfolding_all decide

/-- Claim C7 (amended): each preemptive dispatch increases the waiting
accumulator by the gap between the burst start and the end of the previous
burst, or — on the first burst — the gap between the burst start and `0`
(not the arrival time); hence over a whole Round-Robin run of fresh tasks
the accumulator equals the gap sum of the recorded bursts with base point
`0`. -/
theorem c7_espera_acumulada :
    ∀ (quantum : ℚ) (fuel : Nat) (tarefas : List TarefaCAV) (s' : EstadoRR),
      (∀ t ∈ tarefas, Fresh t) →
      escalonarRR quantum fuel tarefas = some s' →
      ∀ t ∈ s'.concluidas, t.tempo_em_espera = gapsFrom 0 t.tempos_execucao := by
  intro quantum fuel tarefas s' hfresh hrun
  unfold escalonarRR at hrun
  simp only [] at hrun
  split at hrun
  · cases hrun
    intro t ht
    simp at ht
  · rename_i t0 rest heq
    rw [heq] at hrun
    have hinit : ∀ y ∈ sortAsc (fun t => t.tempo_chegada) tarefas, InvEspera y := by
      intro y hy
      exact fresh_invEspera y (hfresh y ((mem_sortAsc _ tarefas y).1 hy))
    rw [heq] at hinit
    have hinv := rrLoop_invEspera quantum fuel
      { fila := t0 :: rest, concluidas := [], sobrecarga_total := 0,
        tempo_atual := t0.tempo_chegada } s' hinit
      (by intro y hy; simp at hy) hrun
    exact fun t ht => (hinv.2 t ht).1

/-- Witness for claim C7's amended theorem on the concrete Round-Robin run
of `tarefaW`. -/
theorem c7_espera_acumulada_witness :
    tarefaWfim.tempo_em_espera = gapsFrom 0 tarefaWfim.tempos_execucao :=
  c7_espera_acumulada 1 5 [tarefaW] estadoWfim
    (by with_unfolding_all decide) (by with_unfolding_all rfl)
    tarefaWfim (by with_unfolding_all decide)

/-- Claim C4 (amended): in the Round-Robin loop the finish time of a task
that left the queue is assigned exactly once (ghost counter `1`) and only
with remaining time `0`, while a task skipped without a finish time has
duration `0`; FIFO (and SJF, which shares its body) never decrements
`tempo_restante`, so it assigns the finish time while the remaining time
still equals the full duration; and SJF can assign `tempo_final` several
times to one task (five times in the C1 scenario). -/
theorem c4_tempo_final_atribuicao :
    (∀ (quantum : ℚ) (fuel : Nat) (tarefas : List TarefaCAV) (s' : EstadoRR),
        (∀ t ∈ tarefas, Fresh t ∧ 0 ≤ t.duracao) →
        escalonarRR quantum fuel tarefas = some s' →
        ∀ t ∈ s'.concluidas,
          (t.tempo_final.isSome = true →
            t.finalAssignCount = 1 ∧ t.tempo_restante = 0) ∧
          (t.tempo_final = none →
            t.finalAssignCount = 0 ∧ t.duracao = 0)) ∧
    (∀ tarefas : List TarefaCAV, (∀ t ∈ tarefas, Fresh t) →
        ∀ t' ∈ (escalonarFIFO tarefas).1,
          t'.tempo_restante = t'.duracao ∧ t'.tempo_final.isSome = true ∧
            t'.finalAssignCount = 1) ∧
    ((escalonarSJF 12 [mkTarefa "A" 1 0 false 1 none,
        mkTarefa "B" 1 5 false 1 none]).map
      (fun s => s.concluidas.map (fun t => t.finalAssignCount))
      = some [5, 1]) := by
  refine ⟨?_, ?_, by with_unfolding_all rfl⟩
  · intro quantum fuel tarefas s' hfresh hrun
    unfold escalonarRR at hrun
    simp only [] at hrun
    split at hrun
    · cases hrun
      intro t ht
      simp at ht
    · rename_i t0 rest heq
      rw [heq] at hrun
      have hinit : ∀ y ∈ sortAsc (fun t => t.tempo_chegada) tarefas,
          InvFilaFinal y := by
        intro y hy
        obtain ⟨hf, hd⟩ := hfresh y ((mem_sortAsc _ tarefas y).1 hy)
        exact fresh_invFilaFinal y hf hd
      rw [heq] at hinit
      have hinv := rrLoop_invFinal quantum fuel
        { fila := t0 :: rest, concluidas := [], sobrecarga_total := 0,
          tempo_atual := t0.tempo_chegada } s' hinit
        (by intro y hy; simp at hy) hrun
      intro t ht
      have hd := hinv.2 t ht
      constructor
      · intro hsome
        rcases hd with ⟨-, hcnt, hrest⟩ | ⟨hnone, -, -⟩
        · exact ⟨hcnt, hrest⟩
        · rw [hnone] at hsome; simp at hsome
      · intro hnone
        rcases hd with ⟨hsome, -, -⟩ | ⟨-, hcnt, hdur⟩
        · rw [hnone] at hsome; simp at hsome
        · exact ⟨hcnt, hdur⟩
  · intro tarefas hfresh
    unfold escalonarFIFO
    simp only []
    split
    · intro t' ht'
      simp at ht'
    · rename_i t0 rest heq
      rw [heq]
      intro t' ht'
      refine fifoPasso_foldl_inv (t0 :: rest) ([], t0.tempo_chegada)
        (by intro t ht; simp at ht) ?_ t' ht'
      intro t ht
      rw [← heq] at ht
      obtain ⟨h1, -, -, -, -, -, -, -, h9⟩ :=
        hfresh t ((mem_sortAsc _ tarefas t).1 ht)
      exact ⟨h1, h9⟩

/-- Witness for claim C4's amended theorem on the concrete Round-Robin and
FIFO runs of `tarefaW`. -/
theorem c4_tempo_final_atribuicao_witness :
    (tarefaWfim.finalAssignCount = 1 ∧ tarefaWfim.tempo_restante = 0) ∧
    (tarefaWfifo.tempo_restante = tarefaWfifo.duracao ∧
      tarefaWfifo.tempo_final.isSome = true ∧
      tarefaWfifo.finalAssignCount = 1) :=
  ⟨(c4_tempo_final_atribuicao.1 1 5 [tarefaW] estadoWfim
        (by with_unfolding_all decide) (by with_unfolding_all rfl)
        tarefaWfim (by with_unfolding_all decide)).1
      (by with_unfolding_all rfl),
   c4_tempo_final_atribuicao.2.1 [tarefaW] (by with_unfolding_all decide)
     tarefaWfifo (by with_unfolding_all decide)⟩

/-- Claim C8 (amended): a completed Round-Robin run of fresh tasks with
nonnegative durations empties the queue and accounts for every task, and
every task of nonzero duration ends with its finish time set; a task of
duration exactly `0` is removed from the queue without its finish time ever
being assigned (see the counterexample). -/
theorem c8_todas_finalizam :
    ∀ (quantum : ℚ) (fuel : Nat) (tarefas : List TarefaCAV) (s' : EstadoRR),
      (∀ t ∈ tarefas, Fresh t ∧ 0 ≤ t.duracao) →
      escalonarRR quantum fuel tarefas = some s' →
      s'.fila = [] ∧ s'.concluidas.length = tarefas.length ∧
      ∀ t ∈ s'.concluidas, t.duracao ≠ 0 → t.tempo_final.isSome = true := by
  intro quantum fuel tarefas s' hfresh hrun
  unfold escalonarRR at hrun
  simp only [] at hrun
  split at hrun
  · rename_i heq
    cases hrun
    refine ⟨rfl, ?_, ?_⟩
    · show ([] : List TarefaCAV).length = tarefas.length
      rw [← heq]
      exact length_sortAsc (fun t => t.tempo_chegada) tarefas
    · intro t ht
      simp at ht
  · rename_i t0 rest heq
    rw [heq] at hrun
    have hnil := rrLoop_some_fila_nil quantum fuel _ s' hrun
    have hlen := rrLoop_length quantum fuel _ s' hrun
    have hsort := length_sortAsc (fun t => t.tempo_chegada) tarefas
    rw [heq] at hsort
    refine ⟨hnil, ?_, ?_⟩
    · rw [hnil] at hlen
      simp only [List.length_nil] at hlen
      omega
    · have hinit : ∀ y ∈ sortAsc (fun t => t.tempo_chegada) tarefas,
          InvFilaFinal y := by
        intro y hy
        obtain ⟨hf, hd⟩ := hfresh y ((mem_sortAsc _ tarefas y).1 hy)
        exact fresh_invFilaFinal y hf hd
      rw [heq] at hinit
      have hinv := rrLoop_invFinal quantum fuel
        { fila := t0 :: rest, concluidas := [], sobrecarga_total := 0,
          tempo_atual := t0.tempo_chegada } s' hinit
        (by intro y hy; simp at hy) hrun
      intro t ht hdur
      rcases hinv.2 t ht with ⟨hsome, -, -⟩ | ⟨-, -, hzero⟩
      · exact hsome
      · exact absurd hzero hdur

/-- Claim C8 (counterexample): a zero-duration task under Round-Robin is
dequeued by the `tempo_restante > 0` guard without ever being marked
finished: its `tempo_final` stays `None` when the run returns. -/
theorem c8_contraexemplo :
    (escalonarRR 1 5 [mkTarefa "Z" 0 0 false 1 none]).map
      (fun s => s.concluidas.map (fun t => (t.tempo_final, t.duracao)))
      = some [(none, 0)] := by
  with_unfolding_all rfl

/-- Witness for claim C8's amended theorem on the concrete Round-Robin run
of `tarefaW`. -/
theorem c8_todas_finalizam_witness :
    estadoWfim.fila = [] ∧ estadoWfim.concluidas.length = 1 ∧
      tarefaWfim.tempo_final.isSome = true := by
  obtain ⟨h1, h2, h3⟩ := c8_todas_finalizam 1 5 [tarefaW] estadoWfim
    (by with_unfolding_all decide) (by with_unfolding_all rfl)
  refine ⟨h1, ?_, h3 tarefaWfim (by with_unfolding_all decide)
    (by with_unfolding_all decide)⟩
  simpa using h2

/-- Claim C10: `TarefaCAV.executar` consumes exactly
`min(tempo_restante, quantum)`, so a nonnegative remaining time stays
nonnegative; and the Round-Robin loop preserves nonnegativity of every
task's remaining time from any state whose tasks all have nonnegative
remaining time, i.e. `tempo_restante ≥ 0` is an invariant throughout any
run. -/
theorem c10_tempo_restante_nao_negativo :
    (∀ (t : TarefaCAV) (quantum : ℚ),
        (TarefaCAV.executar t quantum).2 = min t.tempo_restante quantum ∧
        (0 ≤ t.tempo_restante →
          0 ≤ (TarefaCAV.executar t quantum).1.tempo_restante)) ∧
    (∀ (quantum : ℚ) (fuel : Nat) (s s' : EstadoRR),
        (∀ t ∈ s.fila, 0 ≤ t.tempo_restante) →
        (∀ t ∈ s.concluidas, 0 ≤ t.tempo_restante) →
        rrLoop quantum fuel s = some s' →
        (∀ t ∈ s'.fila, 0 ≤ t.tempo_restante) ∧
        (∀ t ∈ s'.concluidas, 0 ≤ t.tempo_restante)) := by
  constructor
  · intro t quantum
    refine ⟨rfl, fun _ => ?_⟩
    show 0 ≤ t.tempo_restante - min t.tempo_restante quantum
    exact sub_nonneg.2 (min_le_left _ _)
  · exact fun quantum => rrLoop_nonneg quantum

/-- Witness for claim C10 on a concrete task and the concrete Round-Robin
run of `tarefaW`. -/
theorem c10_tempo_restante_nao_negativo_witness :
    0 ≤ (TarefaCAV.executar tarefaW 1).1.tempo_restante ∧
    0 ≤ tarefaWfim.tempo_restante := by
  constructor
  · exact (c10_tempo_restante_nao_negativo.1 tarefaW 1).2
      (by with_unfolding_all decide)
  · exact (c10_tempo_restante_nao_negativo.2 1 5
      { fila := [tarefaW], concluidas := [], sobrecarga_total := 0,
        tempo_atual := 0 } estadoWfim
      (by with_unfolding_all decide) (by intro t ht; simp at ht)
      (by with_unfolding_all rfl)).2 tarefaWfim (by with_unfolding_all decide)

/-- Claim C4 (counterexample): FIFO assigns the finish time while the
remaining time still equals the full duration: for a single task of duration
`5` the run ends with `tempo_final = 5` and `tempo_restante = 5 ≠ 0`; FIFO
never decrements `tempo_restante`, so it was `5` at the moment of the
assignment as well. -/
theorem c4_contraexemplo :
    ((escalonarFIFO [mkTarefa "A" 5 0 false 1 none]).1.map
      (fun t => (t.tempo_final, t.tempo_restante))) = [(some 5, 5)] ∧
    (5 : ℚ) ≠ 0 := by
  with_unfolding_all decide
